import Mathlib

set_option maxRecDepth 100000

/-!
Verification of the hlds-master repository (src/main.go): the server
registry, the liveness sweep, and the A2S_INFO codec, embedded as pure
Lean functions.  Go byte slices are `List Nat`, Go strings read off the
wire are byte lists, timestamps are `Nat`, and the `servers` map is an
association list keyed by the address string.
-/

namespace HldsMaster

/-- One decoded A2S_INFO response: server name and map as raw byte
strings, then the two player-count bytes. -/
structure A2SInfo where
  name : List Nat
  map : List Nat
  players : Nat
  maxPlayers : Nat
  deriving Repr, DecidableEq

/-- Outcome of one decode attempt.  `fail` is the silent early return;
`panicked` marks a byte access that would have thrown in Go (indexing
into an empty slice returned by Next). -/
inductive DecodeOutcome where
  | ok (info : A2SInfo)
  | fail
  | panicked
  deriving Repr, DecidableEq

/-- bytes.Buffer.ReadString 0: the bytes up to and including the first
zero byte, or the whole remaining content when no zero byte occurs,
paired with the bytes still left in the buffer. -/
def bufReadNull : List Nat → List Nat × List Nat
  | [] => ([], [])
  | x :: xs =>
      if x = 0 then ([x], xs)
      else
        let r := bufReadNull xs
        (x :: r.1, r.2)

/-- The readString closure in queryServerDetails: call ReadString 0,
ignore its error, and drop the final byte of the chunk whenever the
chunk is non-empty. -/
def readString (b : List Nat) : List Nat × List Nat :=
  let r := bufReadNull b
  (r.1.dropLast, r.2)

/-- The tail of the decoder: the Len < 2 guard, then Next(1)[0] twice.
Next 1 on a buffer is take 1, and indexing its head is `head?`; a `none`
there is the Go panic. -/
def finishDecode (nm mp b6 : List Nat) : DecodeOutcome :=
  if b6.length < 2 then DecodeOutcome.fail
  else
    match (b6.take 1).head?, ((b6.drop 1).take 1).head? with
    | some p, some m => DecodeOutcome.ok ⟨nm, mp, p, m⟩
    | _, _ => DecodeOutcome.panicked

/-- Parse of the contents handed to bytes.NewBuffer (the response after
the 5 header bytes): skip 1 protocol byte, read name, map, folder, game
as null-terminated strings, skip 2 id bytes, then the player bytes. -/
def decodeBuffer (buffer : List Nat) : DecodeOutcome :=
  let b1 := buffer.drop 1
  let r1 := readString b1
  let r2 := readString r1.2
  let r3 := readString r2.2
  let r4 := readString r3.2
  finishDecode r1.1 r2.1 (r4.2.drop 2)

/-- Size of the receive buffer `resp := make([]byte, 1400)`. -/
def respBufSize : Nat := 1400

/-- The buffer contents after conn.Read: the first min(len, 1400) bytes
of the datagram, the rest of the 1400 bytes still zero.  The code then
parses resp[5:], i.e. this whole padded buffer, not resp[5:n]. -/
def recvBuffer (datagram : List Nat) : List Nat :=
  datagram.take respBufSize ++ List.replicate (respBufSize - datagram.length) 0

/-- The decode path of queryServerDetails as a function of the received
datagram: the n < 5 early return, then the parse of resp[5:]. -/
def queryDecode (datagram : List Nat) : DecodeOutcome :=
  if min datagram.length respBufSize < 5 then DecodeOutcome.fail
  else decodeBuffer ((recvBuffer datagram).drop 5)

/-- The fixed A2S_INFO request bytes sent by queryServerDetails. -/
def a2sInfoRequest : List Nat :=
  [0xFF, 0xFF, 0xFF, 0xFF, 0x54, 0x53, 0x6F, 0x75, 0x72, 0x63, 0x65, 0x20,
   0x45, 0x6E, 0x67, 0x69, 0x6E, 0x65, 0x20, 0x51, 0x75, 0x65, 0x72, 0x79,
   0x00]

/-- One registry record (ServerInfo in src/main.go).  The name and map
strings come off the wire, so they are byte lists. -/
structure ServerInfo where
  address : String
  lastSeen : Nat
  name : List Nat
  map : List Nat
  players : Nat
  maxPlayers : Nat
  deriving Repr, DecidableEq

/-- The manager.servers map, as an association list from address to the
record the address's pointer designates. -/
abbrev Reg : Type := List (String × ServerInfo)

/-- Go map lookup. -/
def lookupRecord : Reg → String → Option ServerInfo
  | [], _ => none
  | (b, s) :: rest, a => if b = a then some s else lookupRecord rest a

/-- Go map store to an existing or new key: replace the entry at the
key, or append a fresh one. -/
def setRecord : Reg → String → ServerInfo → Reg
  | [], a, v => [(a, v)]
  | (b, s) :: rest, a, v =>
      if b = a then (a, v) :: rest else (b, s) :: setRecord rest a v

/-- The Go map invariant: each address keys at most one entry. -/
abbrev keysNodup (reg : Reg) : Prop := (reg.map Prod.fst).Nodup

/-- Number of entries stored under a key. -/
def countKey (a : String) : Reg → Nat
  | [] => 0
  | (b, _) :: rest => (if b = a then 1 else 0) + countKey a rest

/-- The placeholder name "Scanning..." given to a new record. -/
def scanningName : List Nat :=
  [83, 99, 97, 110, 110, 105, 110, 103, 46, 46, 46]

/-- The record admitted for a newly seen address: lastSeen now, the
placeholder name, and zero values for the remaining fields. -/
def freshRecord (address : String) (now : Nat) : ServerInfo :=
  { address := address, lastSeen := now, name := scanningName,
    map := [], players := 0, maxPlayers := 0 }

/-- registerServer in src/main.go: bump lastSeen of an existing record,
or admit a new record with placeholder fields. -/
def registerServer (now : Nat) (address : String) (reg : Reg) : Reg :=
  match lookupRecord reg address with
  | some s => setRecord reg address { s with lastSeen := now }
  | none => reg ++ [(address, freshRecord address now)]

/-- The write-back at the end of queryServerDetails: re-check existence
under the lock, then overwrite only the four descriptive fields. -/
def applyStatus (reg : Reg) (address : String) (nm mp : List Nat)
    (p m : Nat) : Reg :=
  match lookupRecord reg address with
  | some s =>
      setRecord reg address
        { s with name := nm, map := mp, players := p, maxPlayers := m }
  | none => reg

/-- The registry effect of one whole queryServerDetails call that
received the given datagram for the given address. -/
def queryStep (reg : Reg) (address : String) (datagram : List Nat) : Reg :=
  match queryDecode datagram with
  | DecodeOutcome.ok info =>
      applyStatus reg address info.name info.map info.players info.maxPlayers
  | _ => reg

/-- The staleness threshold, 5 * time.Minute, in seconds. -/
def staleThreshold : Nat := 5 * 60

/-- One pass of the startCleanerAndQuery critical section: walk the map,
delete every entry with now - lastSeen > threshold, and collect each
surviving address into checkList.  Returns the surviving map and the
checkList. -/
def cleanSweep (now threshold : Nat) : Reg → Reg × List String
  | [] => ([], [])
  | (a, s) :: rest =>
      let r := cleanSweep now threshold rest
      if now - s.lastSeen > threshold then r
      else ((a, s) :: r.1, a :: r.2)

/-- The addresses the sweep deletes this cycle. -/
def evictedAddrs (now threshold : Nat) (reg : Reg) : List String :=
  (reg.filter (fun q => decide (now - q.2.lastSeen > threshold))).map Prod.fst

/-- The sort.Slice insertion step under the comparator
list[i].LastSeen.After(list[j].LastSeen). -/
def insertDesc (x : String × ServerInfo) :
    List (String × ServerInfo) → List (String × ServerInfo)
  | [] => [x]
  | y :: ys =>
      if y.2.lastSeen < x.2.lastSeen then x :: y :: ys else y :: insertDesc x ys

/-- handleWeb's list of the registry's records sorted most recently seen
first. -/
def sortServers : List (String × ServerInfo) → List (String × ServerInfo)
  | [] => []
  | x :: xs => insertDesc x (sortServers xs)

/-- handleWeb appends the records as pointers.  A record's cell is
created once in registerServer and only ever mutated in place, so the
address names the pointer; the snapshot is the sorted list of those
pointers. -/
def snapshotRefs (reg : Reg) : List String := (sortServers reg).map Prod.fst

/-- Dereferencing the snapshot's pointers in a later registry state:
each address reads whatever its cell holds now. -/
def readSnapshot (reg : Reg) (refs : List String) : List (Option ServerInfo) :=
  refs.map (lookupRecord reg)

/-- A concrete one-record registry used by witnesses: one server
admitted at time 100. -/
def demoAddr : String := "1.2.3.4:27015"

/-- The registry holding only the demo record. -/
def demoReg : Reg := registerServer 100 demoAddr []

/-- A response cut off inside the name string: header, type byte,
protocol byte, then the three bytes of "Alp" with no terminator. -/
def truncatedResponse : List Nat :=
  [0xFF, 0xFF, 0xFF, 0xFF, 0x49, 0x02, 65, 108, 112]

/-- The well-formed response of the spec's round-trip example: header
FF FF FF FF 49, protocol 02, "Alpha", "de_dust2", "cstrike",
"Counter-Strike" null-terminated, id 00 00, players 10 20 hex. -/
def wellFormedResponse : List Nat :=
  [0xFF, 0xFF, 0xFF, 0xFF, 0x49, 0x02] ++
    [65, 108, 112, 104, 97, 0] ++
    [100, 101, 95, 100, 117, 115, 116, 50, 0] ++
    [99, 115, 116, 114, 105, 107, 101, 0] ++
    [67, 111, 117, 110, 116, 101, 114, 45, 83, 116, 114, 105, 107, 101, 0] ++
    [0, 0, 0x10, 0x20]

/-! Codec lemmas. -/

theorem bufReadNull_no_null (b : List Nat) (h : 0 ∉ b) : bufReadNull b = (b, []) := by
  induction b with
  | nil => rfl
  | cons x xs ih =>
      rw [List.mem_cons, not_or] at h
      simp only [bufReadNull]
      rw [if_neg (fun hx => h.1 hx.symm), ih h.2]

theorem finishDecode_ne_panicked (nm mp b6 : List Nat) :
    finishDecode nm mp b6 ≠ DecodeOutcome.panicked := by
  match b6 with
  | [] => simp [finishDecode]
  | [x] => simp [finishDecode]
  | x :: y :: t =>
      simp only [finishDecode, List.length_cons]
      rw [if_neg (by omega)]
      simp

theorem decodeBuffer_ne_panicked (b : List Nat) :
    decodeBuffer b ≠ DecodeOutcome.panicked :=
  finishDecode_ne_panicked _ _ _

theorem queryDecode_ne_panicked (d : List Nat) :
    queryDecode d ≠ DecodeOutcome.panicked := by
  unfold queryDecode
  split
  · exact fun h => DecodeOutcome.noConfusion h
  · exact decodeBuffer_ne_panicked _

/-! Registry lemmas. -/

theorem lookupRecord_setRecord_self (reg : Reg) (a : String) (v : ServerInfo) :
    lookupRecord (setRecord reg a v) a = some v := by
  induction reg with
  | nil => simp [setRecord, lookupRecord]
  | cons p rest ih =>
      obtain ⟨b, s⟩ := p
      by_cases hb : b = a
      · subst hb
        simp [setRecord, lookupRecord]
      · simp [setRecord, lookupRecord, hb, ih]

theorem lookupRecord_setRecord_ne (reg : Reg) (a c : String) (v : ServerInfo)
    (h : c ≠ a) : lookupRecord (setRecord reg a v) c = lookupRecord reg c := by
  induction reg with
  | nil =>
      have ha : a ≠ c := fun hh => h hh.symm
      simp [setRecord, lookupRecord, ha]
  | cons p rest ih =>
      obtain ⟨b, s⟩ := p
      by_cases hb : b = a
      · subst hb
        have hbc : b ≠ c := fun hh => h hh.symm
        simp [setRecord, lookupRecord, hbc]
      · simp only [setRecord, if_neg hb]
        by_cases hbc : b = c
        · subst hbc
          simp [lookupRecord]
        · simp [lookupRecord, hbc, ih]

theorem lookupRecord_eq_none_iff (reg : Reg) (a : String) :
    lookupRecord reg a = none ↔ a ∉ reg.map Prod.fst := by
  induction reg with
  | nil => simp [lookupRecord]
  | cons p rest ih =>
      obtain ⟨b, s⟩ := p
      by_cases hb : b = a
      · subst hb
        simp [lookupRecord]
      · have hab : a ≠ b := fun hh => hb hh.symm
        simp [lookupRecord, hb, ih, hab]

theorem mem_map_fst_of_lookup_some (reg : Reg) (a : String) (s : ServerInfo)
    (h : lookupRecord reg a = some s) : a ∈ reg.map Prod.fst := by
  by_contra hc
  rw [← lookupRecord_eq_none_iff] at hc
  rw [h] at hc
  exact Option.noConfusion hc

theorem lookupRecord_append_of_none (reg l2 : Reg) (a : String)
    (h : lookupRecord reg a = none) :
    lookupRecord (reg ++ l2) a = lookupRecord l2 a := by
  induction reg with
  | nil => rfl
  | cons p rest ih =>
      obtain ⟨b, s⟩ := p
      by_cases hb : b = a
      · subst hb
        simp [lookupRecord] at h
      · simp only [lookupRecord, if_neg hb] at h
        simpa [lookupRecord, hb] using ih h

theorem map_fst_setRecord_mem (reg : Reg) (a : String) (v : ServerInfo)
    (h : a ∈ reg.map Prod.fst) :
    (setRecord reg a v).map Prod.fst = reg.map Prod.fst := by
  induction reg with
  | nil => simp at h
  | cons p rest ih =>
      obtain ⟨b, s⟩ := p
      by_cases hb : b = a
      · subst hb
        simp [setRecord]
      · have hab : a ≠ b := fun hh => hb hh.symm
        have h' : a ∈ rest.map Prod.fst := by
          rcases List.mem_cons.1 h with h1 | h1
          · exact absurd h1 hab
          · exact h1
        simp [setRecord, hb, ih h']

theorem countKey_eq_zero_of_not_mem (reg : Reg) (a : String)
    (h : a ∉ reg.map Prod.fst) : countKey a reg = 0 := by
  induction reg with
  | nil => rfl
  | cons p rest ih =>
      obtain ⟨b, s⟩ := p
      simp only [List.map_cons, List.mem_cons, not_or] at h
      have hb : b ≠ a := fun hh => h.1 hh.symm
      simp [countKey, hb, ih h.2]

theorem countKey_of_nodup_mem (reg : Reg) (a : String) (h : keysNodup reg)
    (hm : a ∈ reg.map Prod.fst) : countKey a reg = 1 := by
  induction reg with
  | nil => simp at hm
  | cons p rest ih =>
      obtain ⟨b, s⟩ := p
      simp only [keysNodup, List.map_cons, List.nodup_cons] at h
      by_cases hb : b = a
      · subst hb
        simp [countKey, countKey_eq_zero_of_not_mem rest b h.1]
      · have hab : a ≠ b := fun hh => hb hh.symm
        have hm' : a ∈ rest.map Prod.fst := by
          rcases List.mem_cons.1 hm with h1 | h1
          · exact absurd h1 hab
          · exact h1
        simp [countKey, hb, ih h.2 hm']

theorem countKey_append (a : String) (l1 l2 : Reg) :
    countKey a (l1 ++ l2) = countKey a l1 + countKey a l2 := by
  induction l1 with
  | nil => simp [countKey]
  | cons p rest ih =>
      obtain ⟨b, s⟩ := p
      simp [countKey, ih, Nat.add_assoc]

theorem mem_unique_of_keysNodup (reg : Reg) (h : keysNodup reg) (a : String)
    (s t : ServerInfo) (hs : (a, s) ∈ reg) (ht : (a, t) ∈ reg) : s = t := by
  induction reg with
  | nil => simp at hs
  | cons p rest ih =>
      obtain ⟨b, u⟩ := p
      simp only [keysNodup, List.map_cons, List.nodup_cons] at h
      rcases List.mem_cons.1 hs with h1 | h1
      · injection h1 with hab hsu
        subst hab
        rcases List.mem_cons.1 ht with h2 | h2
        · injection h2 with hat htu
          rw [hsu, htu]
        · exact absurd (List.mem_map_of_mem Prod.fst h2) h.1
      · rcases List.mem_cons.1 ht with h2 | h2
        · injection h2 with hab htu
          subst hab
          exact absurd (List.mem_map_of_mem Prod.fst h1) h.1
        · exact ih h.2 h1 h2

/-! Sweep lemmas. -/

theorem cleanSweep_mem (now T : Nat) (reg : Reg) (a : String) (s : ServerInfo) :
    (a, s) ∈ (cleanSweep now T reg).1 ↔ (a, s) ∈ reg ∧ now - s.lastSeen ≤ T := by
  induction reg with
  | nil => simp [cleanSweep]
  | cons p rest ih =>
      obtain ⟨b, t⟩ := p
      simp only [cleanSweep]
      by_cases hc : now - t.lastSeen > T
      · rw [if_pos hc]
        rw [ih]
        constructor
        · intro hh
          exact ⟨List.mem_cons_of_mem _ hh.1, hh.2⟩
        · intro hh
          rcases List.mem_cons.1 hh.1 with h1 | h1
          · exfalso
            have hst : s = t := congrArg Prod.snd h1
            have := hh.2
            rw [hst] at this
            omega
          · exact ⟨h1, hh.2⟩
      · rw [if_neg hc]
        constructor
        · intro hh
          rcases List.mem_cons.1 hh with h1 | h1
          · have hst : s = t := congrArg Prod.snd h1
            refine ⟨List.mem_cons.2 (Or.inl h1), ?_⟩
            rw [hst]
            omega
          · have := ih.1 h1
            exact ⟨List.mem_cons_of_mem _ this.1, this.2⟩
        · intro hh
          rcases List.mem_cons.1 hh.1 with h1 | h1
          · exact List.mem_cons.2 (Or.inl h1)
          · exact List.mem_cons_of_mem _ (ih.2 ⟨h1, hh.2⟩)

theorem cleanSweep_checkList (now T : Nat) (reg : Reg) :
    (cleanSweep now T reg).2 = ((cleanSweep now T reg).1).map Prod.fst := by
  induction reg with
  | nil => rfl
  | cons p rest ih =>
      obtain ⟨b, t⟩ := p
      simp only [cleanSweep]
      by_cases hc : now - t.lastSeen > T
      · simpa [hc] using ih
      · simp [hc, ih]

/-! Sort lemmas for the handleWeb snapshot. -/

theorem insertDesc_perm (x : String × ServerInfo) (l : List (String × ServerInfo)) :
    (insertDesc x l).Perm (x :: l) := by
  induction l with
  | nil => exact List.Perm.refl _
  | cons y ys ih =>
      simp only [insertDesc]
      by_cases hc : y.2.lastSeen < x.2.lastSeen
      · rw [if_pos hc]
      · rw [if_neg hc]
        exact (ih.cons y).trans (List.Perm.swap x y ys)

theorem sortServers_perm (l : List (String × ServerInfo)) :
    (sortServers l).Perm l := by
  induction l with
  | nil => exact List.Perm.refl _
  | cons x xs ih => exact (insertDesc_perm x (sortServers xs)).trans (ih.cons x)

theorem insertDesc_pairwise (x : String × ServerInfo)
    (l : List (String × ServerInfo))
    (h : l.Pairwise (fun a b => b.2.lastSeen ≤ a.2.lastSeen)) :
    (insertDesc x l).Pairwise (fun a b => b.2.lastSeen ≤ a.2.lastSeen) := by
  induction l with
  | nil => simp [insertDesc]
  | cons y ys ih =>
      rcases List.pairwise_cons.1 h with ⟨hy, hys⟩
      simp only [insertDesc]
      by_cases hc : y.2.lastSeen < x.2.lastSeen
      · rw [if_pos hc]
        refine List.pairwise_cons.2 ⟨?_, h⟩
        intro z hz
        rcases List.mem_cons.1 hz with h1 | h1
        · rw [h1]
          exact Nat.le_of_lt hc
        · exact Nat.le_trans (hy z h1) (Nat.le_of_lt hc)
      · rw [if_neg hc]
        refine List.pairwise_cons.2 ⟨?_, ih hys⟩
        intro z hz
        have hz' : z ∈ x :: ys := (insertDesc_perm x ys).mem_iff.1 hz
        rcases List.mem_cons.1 hz' with h1 | h1
        · rw [h1]
          exact Nat.le_of_not_lt hc
        · exact hy z h1

theorem sortServers_pairwise (l : List (String × ServerInfo)) :
    (sortServers l).Pairwise (fun a b => b.2.lastSeen ≤ a.2.lastSeen) := by
  induction l with
  | nil => simp [sortServers]
  | cons x xs ih => exact insertDesc_pairwise x (sortServers xs) ih

/-! Unfolding equations for the two registry writers. -/

theorem applyStatus_eq_of_none (reg : Reg) (a : String) (nm mp : List Nat)
    (p m : Nat) (h : lookupRecord reg a = none) :
    applyStatus reg a nm mp p m = reg := by
  unfold applyStatus
  rw [h]

theorem applyStatus_eq_of_some (reg : Reg) (a : String) (nm mp : List Nat)
    (p m : Nat) (s : ServerInfo) (h : lookupRecord reg a = some s) :
    applyStatus reg a nm mp p m =
      setRecord reg a
        { s with name := nm, map := mp, players := p, maxPlayers := m } := by
  unfold applyStatus
  rw [h]

theorem registerServer_eq_of_some (reg : Reg) (a : String) (now : Nat)
    (s : ServerInfo) (h : lookupRecord reg a = some s) :
    registerServer now a reg = setRecord reg a { s with lastSeen := now } := by
  unfold registerServer
  rw [h]

theorem registerServer_eq_of_none (reg : Reg) (a : String) (now : Nat)
    (h : lookupRecord reg a = none) :
    registerServer now a reg = reg ++ [(a, freshRecord a now)] := by
  unfold registerServer
  rw [h]

/-! The claims. -/

/-- Claim C1: the spec requires that a response truncated mid-string (a
null-terminated field missing its terminator) decode as a failure and
leave the record unchanged.  The code instead parses resp[5:], the whole
zero-initialized 1400-byte buffer rather than the n received bytes, so
the zero padding supplies string terminators: the truncated response
FF FF FF FF 49 02 41 6C 70 decodes successfully to name "Alp", map
empty, players 0, maxPlayers 0, and the write-back then overwrites the
record's descriptive fields. -/
theorem truncated_midstring_decodes_ok :
    queryDecode truncatedResponse =
      DecodeOutcome.ok ⟨[65, 108, 112], [], 0, 0⟩ ∧
    lookupRecord (queryStep demoReg demoAddr truncatedResponse) demoAddr =
      some { address := demoAddr, lastSeen := 100, name := [65, 108, 112],
             map := [], players := 0, maxPlayers := 0 } :=
  ⟨rfl, rfl⟩

/-- Claim C2 counterexample: handleWeb's list holds pointers into the
registry, so a status write-back performed after the list was built is
visible through it — the returned sequence is not an alias-free
point-in-time copy of the records. -/
theorem snapshot_aliasing_cex :
    readSnapshot (applyStatus demoReg demoAddr [65] [66] 1 2)
        (snapshotRefs demoReg) ≠
      (sortServers demoReg).map (fun p => some p.2) := by
  decide

/-- Claim C2 amended: handleWeb returns, while holding the registry's
read lock, the records ordered by lastSeen descending — a permutation of
the registry, pairwise sorted most recently seen first.  The sequence
aliases the registry's records, so it is only read under that lock. -/
theorem snapshot_sorted_desc (reg : Reg) :
    (sortServers reg).Pairwise (fun a b => b.2.lastSeen ≤ a.2.lastSeen) ∧
    (sortServers reg).Perm reg :=
  ⟨sortServers_pairwise reg, sortServers_perm reg⟩

/-- Claim C3: ApplyStatus on an address whose record was removed leaves
the registry exactly as it was — no record is created and no record is
modified; on an address whose record still exists it overwrites exactly
the four descriptive fields of that record. -/
theorem applyStatus_no_resurrection (reg : Reg) (a : String)
    (nm mp : List Nat) (p m : Nat) :
    (lookupRecord reg a = none → applyStatus reg a nm mp p m = reg) ∧
    (∀ s, lookupRecord reg a = some s →
      lookupRecord (applyStatus reg a nm mp p m) a =
        some { s with name := nm, map := mp, players := p, maxPlayers := m }) := by
  constructor
  · intro h
    exact applyStatus_eq_of_none reg a nm mp p m h
  · intro s hs
    rw [applyStatus_eq_of_some reg a nm mp p m s hs]
    exact lookupRecord_setRecord_self reg a _

theorem applyStatus_no_resurrection_witness :
    applyStatus [] "1.2.3.4:27015" [65] [66] 1 2 = [] :=
  (applyStatus_no_resurrection [] "1.2.3.4:27015" [65] [66] 1 2).1 rfl

/-- Claim C4: a successful status write-back changes only the four
descriptive fields: every record's address and lastSeen read the same
before and after ApplyStatus, records at other addresses are untouched,
and the sweep keeps each surviving record bit-identical — so among the
registry writers only the Touch path (registerServer) sets lastSeen. -/
theorem applyStatus_frame (reg : Reg) (a : String) (nm mp : List Nat)
    (p m : Nat) :
    (∀ b, (lookupRecord (applyStatus reg a nm mp p m) b).map
        (fun s => s.address) =
      (lookupRecord reg b).map (fun s => s.address)) ∧
    (∀ b, (lookupRecord (applyStatus reg a nm mp p m) b).map
        (fun s => s.lastSeen) =
      (lookupRecord reg b).map (fun s => s.lastSeen)) ∧
    (∀ b, b ≠ a →
      lookupRecord (applyStatus reg a nm mp p m) b = lookupRecord reg b) ∧
    (∀ now T b s, (b, s) ∈ (cleanSweep now T reg).1 → (b, s) ∈ reg) := by
  cases hl : lookupRecord reg a with
  | none =>
      rw [applyStatus_eq_of_none reg a nm mp p m hl]
      refine ⟨fun b => rfl, fun b => rfl, fun b hb => rfl, ?_⟩
      intro now T b s hmem
      exact ((cleanSweep_mem now T reg b s).1 hmem).1
  | some s =>
      rw [applyStatus_eq_of_some reg a nm mp p m s hl]
      refine ⟨?_, ?_, ?_, ?_⟩
      · intro b
        by_cases hb : b = a
        · subst hb
          rw [lookupRecord_setRecord_self, hl]
          rfl
        · rw [lookupRecord_setRecord_ne reg a b _ hb]
      · intro b
        by_cases hb : b = a
        · subst hb
          rw [lookupRecord_setRecord_self, hl]
          rfl
        · rw [lookupRecord_setRecord_ne reg a b _ hb]
      · intro b hb
        exact lookupRecord_setRecord_ne reg a b _ hb
      · intro now T b s' hmem
        exact ((cleanSweep_mem now T reg b s').1 hmem).1

theorem applyStatus_frame_witness :
    lookupRecord (applyStatus demoReg demoAddr [65] [66] 1 2)
        "5.6.7.8:27015" =
      lookupRecord demoReg "5.6.7.8:27015" :=
  (applyStatus_frame demoReg demoAddr [65] [66] 1 2).2.2.1 "5.6.7.8:27015"
    (by decide)

/-- Claim C5: one sweep pass, computed in a single critical section over
one registry state, keeps exactly the records with now - lastSeen at
most the threshold (removing exactly the strictly staler ones), returns
as its checkList exactly the addresses of the surviving records, and no
evicted address appears in the checkList. -/
theorem cleanSweep_spec (now T : Nat) (reg : Reg) (h : keysNodup reg) :
    (∀ a s, (a, s) ∈ (cleanSweep now T reg).1 ↔
      (a, s) ∈ reg ∧ now - s.lastSeen ≤ T) ∧
    (cleanSweep now T reg).2 = ((cleanSweep now T reg).1).map Prod.fst ∧
    (∀ a, a ∈ (cleanSweep now T reg).2 → a ∉ evictedAddrs now T reg) := by
  refine ⟨fun a s => cleanSweep_mem now T reg a s,
    cleanSweep_checkList now T reg, ?_⟩
  intro a ha hev
  rw [cleanSweep_checkList] at ha
  rcases List.mem_map.1 ha with ⟨x, hxmem, hxa⟩
  rcases List.mem_map.1 hev with ⟨y, hymem, hya⟩
  rcases List.mem_filter.1 hymem with ⟨hyreg, hystale⟩
  have hx := (cleanSweep_mem now T reg x.1 x.2).1 hxmem
  have hstale : now - y.2.lastSeen > T := of_decide_eq_true hystale
  have hxy : x.1 = y.1 := by rw [hxa, hya]
  have h2 : (x.1, y.2) ∈ reg := by
    rw [hxy]
    exact hyreg
  have heq : x.2 = y.2 := mem_unique_of_keysNodup reg h x.1 x.2 y.2 hx.1 h2
  have hle := hx.2
  rw [heq] at hle
  omega

theorem cleanSweep_spec_witness :
    (cleanSweep 400 300 demoReg).2 =
      ((cleanSweep 400 300 demoReg).1).map Prod.fst :=
  (cleanSweep_spec 400 300 demoReg (by decide)).2.1

/-- Claim C6: a Touch keeps the one-record-per-address invariant: the
key set stays duplicate-free and the touched address keys exactly one
entry afterwards; the touched record's lastSeen becomes the call time,
and under a monotone clock lastSeen never decreases across Touch
calls. -/
theorem touch_spec (reg : Reg) (a : String) (now : Nat) (h : keysNodup reg) :
    keysNodup (registerServer now a reg) ∧
    countKey a (registerServer now a reg) = 1 ∧
    (∃ t, lookupRecord (registerServer now a reg) a = some t ∧
      t.lastSeen = now) ∧
    (∀ s, lookupRecord reg a = some s → s.lastSeen ≤ now →
      ∀ t, lookupRecord (registerServer now a reg) a = some t →
        s.lastSeen ≤ t.lastSeen) := by
  cases hl : lookupRecord reg a with
  | some s =>
      rw [registerServer_eq_of_some reg a now s hl]
      have hm : a ∈ reg.map Prod.fst := mem_map_fst_of_lookup_some reg a s hl
      have hkeys := map_fst_setRecord_mem reg a { s with lastSeen := now } hm
      refine ⟨?_, ?_, ?_, ?_⟩
      · unfold keysNodup
        rw [hkeys]
        exact h
      · refine countKey_of_nodup_mem _ a ?_ ?_
        · unfold keysNodup
          rw [hkeys]
          exact h
        · rw [hkeys]
          exact hm
      · exact ⟨_, lookupRecord_setRecord_self reg a _, rfl⟩
      · intro s' hs' hle t ht
        rw [lookupRecord_setRecord_self] at ht
        injection ht with ht'
        rw [← ht']
        exact hle
  | none =>
      rw [registerServer_eq_of_none reg a now hl]
      have hm : a ∉ reg.map Prod.fst := (lookupRecord_eq_none_iff reg a).1 hl
      refine ⟨?_, ?_, ?_, ?_⟩
      · unfold keysNodup
        rw [List.map_append, List.nodup_append]
        refine ⟨h, List.nodup_singleton _, ?_⟩
        intro x hx hx2
        simp only [List.map_cons, List.map_nil, List.mem_singleton] at hx2
        subst hx2
        exact hm hx
      · rw [countKey_append, countKey_eq_zero_of_not_mem reg a hm]
        simp [countKey]
      · refine ⟨freshRecord a now, ?_, rfl⟩
        rw [lookupRecord_append_of_none reg _ a hl]
        simp [lookupRecord]
      · intro s' hs'
        simp at hs'

theorem touch_spec_witness :
    countKey demoAddr (registerServer 200 demoAddr demoReg) = 1 :=
  (touch_spec demoReg demoAddr 200 (by decide)).2.1

/-- Claim C7: the spec's well-formed response — header FF FF FF FF 49,
protocol byte 02, the null-terminated strings Alpha, de_dust2, cstrike,
Counter-Strike, the two id bytes, then bytes 10 and 20 hex — decodes to
name Alpha, map de_dust2, players 16, maxPlayers 32. -/
theorem decode_wellformed_response :
    queryDecode wellFormedResponse =
      DecodeOutcome.ok ⟨[65, 108, 112, 104, 97],
        [100, 101, 95, 100, 117, 115, 116, 50], 16, 32⟩ := by
  rfl

/-- Claim C8: the decoder is total and never reaches the byte access
that would panic in Go: on every input, of any shape, it ends in the
silent-failure outcome or a success outcome — both for the full receive
path and for the raw buffer parse. -/
theorem decode_total (input : List Nat) :
    (queryDecode input = DecodeOutcome.fail ∨
      ∃ info, queryDecode input = DecodeOutcome.ok info) ∧
    (decodeBuffer input = DecodeOutcome.fail ∨
      ∃ info, decodeBuffer input = DecodeOutcome.ok info) := by
  constructor
  · cases h : queryDecode input with
    | ok info => exact Or.inr ⟨info, rfl⟩
    | fail => exact Or.inl rfl
    | panicked => exact absurd h (queryDecode_ne_panicked input)
  · cases h : decodeBuffer input with
    | ok info => exact Or.inr ⟨info, rfl⟩
    | fail => exact Or.inl rfl
    | panicked => exact absurd h (decodeBuffer_ne_panicked input)

/-- Claim C9: the encoded request is exactly FF FF FF FF, the ASCII
byte T, the ASCII bytes of the string Source Engine Query, and a single
terminating zero byte. -/
theorem request_bytes_spec :
    a2sInfoRequest =
      [0xFF, 0xFF, 0xFF, 0xFF] ++ ['T'.toNat] ++
        ("Source Engine Query".data.map Char.toNat) ++ [0] := by
  decide

/-- Claim C10: when the buffer holds no zero byte, the decoder's string
step returns the whole remaining content minus its final byte — dropping
a real data byte — instead of signalling a failure, and leaves the
buffer empty; on an already-empty buffer it returns the empty string. -/
theorem readString_no_terminator (b : List Nat) (h : 0 ∉ b) :
    readString b = (b.dropLast, []) := by
  simp only [readString]
  rw [bufReadNull_no_null b h]

theorem readString_no_terminator_witness :
    readString [65, 66, 67] = ([65, 66], []) :=
  readString_no_terminator [65, 66, 67] (by decide)

end HldsMaster
